import Mathlib

/-!
# Verification of the page-chaining iterators in
# `google/cloud/compute_v1/services/global_network_endpoint_groups/pagers.py`

The source file defines two pager classes, `ListPager` and
`ListNetworkEndpointsPager`.  Each wraps an injected invocation callable
(`method`), a request, the most recently received response and static call
metadata, and exposes

  * `pages`  — a generator that first yields the held response, then, while
    the held response's `next_page_token` is non-empty, copies that token
    into the held request's `page_token`, calls
    `method(request, metadata=metadata)`, stores the new response and yields
    it;
  * `__iter__` — `for page in self.pages: yield from page.items`;
  * `__getattr__` — forwards any attribute not on the pager itself to the
    held response.

The request/response message schemas are external collaborators, so they are
embedded parametrically: a request is its mutable `page_token` together with
an opaque record `rest` of all its other fields; a response is its ordered
`items`, its `next_page_token` (proto3 strings: an absent token is the empty
string, and Python truthiness of `while self._response.next_page_token:` is
`next_page_token ≠ ""`), and an opaque attribute map `attrs` standing for
`getattr` on the response message.

The Python generator mutates pager state and may run forever, so it is
embedded as a fuel-indexed loop that also records the exact call trace
(request, metadata) handed to the injected callable; a run with fuel `n`
returns the pages yielded by the first `n` loop iterations.  A second,
`Except`-valued copy of the loop embeds the behaviour when the injected
callable raises.
-/

/-- Static call metadata: a sequence of key/value string pairs
(`Sequence[Tuple[str, str]]` in the source). -/
abbrev Metadata := List (String × String)

/-- A list request: the mutable continuation-token field `page_token`
together with all remaining fields `rest` (filter, project, …— an external
schema, kept opaque). -/
structure ListRequest (ρ : Type) where
  page_token : String
  rest : ρ
  deriving Repr, DecidableEq

/-- A list response: the ordered page `items`, the continuation token
`next_page_token` (empty string = absent = last page), and the opaque
attribute map `attrs` standing for `getattr` on the response message. -/
structure ListResponse (α β : Type) where
  items : List α
  next_page_token : String
  attrs : String → Option β

namespace ListPager

/-- The state of a `ListPager` (`__init__`, lines 48-71): the invocation
callable `_method`, the held request `_request`, the most recently received
response `_response` and the static `_metadata`. -/
structure Pager (ρ α β : Type) where
  method : ListRequest ρ → Metadata → ListResponse α β
  request : ListRequest ρ
  response : ListResponse α β
  metadata : Metadata

/-- `ListPager.__init__`: stores the callable, a copy of the caller's
request (`compute.ListGlobalNetworkEndpointGroupsRequest(request)` builds a
fresh message equal to `request`; in the value semantics of the embedding
the copy is the same value, and the caller's own value can never change),
the initial response and the metadata. -/
def init (method : ListRequest ρ → Metadata → ListResponse α β)
    (request : ListRequest ρ) (response : ListResponse α β)
    (metadata : Metadata := []) : Pager ρ α β :=
  { method := method, request := request, response := response,
    metadata := metadata }

/-- `ListPager.__getattr__` (lines 73-74): forward the attribute read to the
held response.  (Python calls `__getattr__` exactly for the names not found
on the pager itself, i.e. outside its own interface.) -/
def getattr (p : Pager ρ α β) (name : String) : Option β :=
  p.response.attrs name

/-- One iteration of the `while` loop inside `pages` (lines 79-82): if the
held response's token is non-empty, copy it into the request's `page_token`,
invoke the callable with `(request, metadata)`, and replace the held
response with the result; otherwise the generator is exhausted. -/
def step (p : Pager ρ α β) : Option (ListResponse α β × Pager ρ α β) :=
  if p.response.next_page_token ≠ "" then
    let req' := { p.request with page_token := p.response.next_page_token }
    let resp' := p.method req' p.metadata
    some (resp', { p with request := req', response := resp' })
  else
    none

/-- The `while` loop of `pages` (lines 79-82), run for at most `fuel`
iterations: returns the responses yielded by the loop, the trace of
`(request, metadata)` arguments handed to the callable, and the final
request and response held by the pager.  A run whose loop exits by the
token test is unchanged by any extra fuel, so statements quantified over
sufficient fuel describe the unbounded Python loop. -/
def pagesLoop (method : ListRequest ρ → Metadata → ListResponse α β)
    (meta : Metadata) :
    Nat → ListRequest ρ → ListResponse α β →
      List (ListResponse α β) × List (ListRequest ρ × Metadata) ×
        ListRequest ρ × ListResponse α β
  | 0, req, resp => ([], [], req, resp)
  | fuel + 1, req, resp =>
    if resp.next_page_token ≠ "" then
      let req' := { req with page_token := resp.next_page_token }
      let resp' := method req' meta
      let out := pagesLoop method meta fuel req' resp'
      (resp' :: out.1, (req', meta) :: out.2.1, out.2.2)
    else
      ([], [], req, resp)

/-- A full run of the `pages` generator (lines 76-82) with the given fuel:
it first yields the held response, then the loop's yields; also returns the
call trace and the pager state after the run. -/
def pages (p : Pager ρ α β) (fuel : Nat) :
    List (ListResponse α β) × List (ListRequest ρ × Metadata) × Pager ρ α β :=
  let out := pagesLoop p.method p.metadata fuel p.request p.response
  (p.response :: out.1, out.2.1,
    { p with request := out.2.2.1, response := out.2.2.2 })

/-- `ListPager.__iter__` (lines 84-86): for each page of a `pages` run,
yield each of the page's `items` in order. -/
def iter (p : Pager ρ α β) (fuel : Nat) : List α :=
  ((pages p fuel).1.map ListResponse.items).flatten

/-- A chain of responses as described by the spec: starting from the held
request `req` and held response `resp`, each response in turn has a
non-empty continuation token which, copied into the request's `page_token`,
makes the callable return the next response of `rest`; the last response of
the chain has an empty token. -/
inductive Chain (method : ListRequest ρ → Metadata → ListResponse α β)
    (meta : Metadata) :
    ListRequest ρ → ListResponse α β → List (ListResponse α β) → Prop
  | last (req : ListRequest ρ) (resp : ListResponse α β)
      (hend : resp.next_page_token = "") : Chain method meta req resp []
  | step (req : ListRequest ρ) (resp resp' : ListResponse α β)
      (rest : List (ListResponse α β))
      (hne : resp.next_page_token ≠ "")
      (hcall : method { req with page_token := resp.next_page_token } meta
        = resp')
      (hrest : Chain method meta
        { req with page_token := resp.next_page_token } resp' rest) :
      Chain method meta req resp (resp' :: rest)

/-- The call trace the loop produces along a chain: one call per element of
`rest`, each carrying the request updated with the previous response's
token, together with the fixed metadata. -/
def chainCalls (meta : Metadata) :
    ListRequest ρ → ListResponse α β → List (ListResponse α β) →
      List (ListRequest ρ × Metadata)
  | _, _, [] => []
  | req, resp, r' :: rest =>
    ({ req with page_token := resp.next_page_token }, meta) ::
      chainCalls meta { req with page_token := resp.next_page_token } r' rest

/-- The callable always returns a response with a non-empty continuation
token (the "server defect" of the spec). -/
def AlwaysNonempty (method : ListRequest ρ → Metadata → ListResponse α β) :
    Prop :=
  ∀ req meta, (method req meta).next_page_token ≠ ""

/-- The iteration of `pages` is unbounded: for every `n` some fuel makes the
run yield at least `n` pages. -/
def UnboundedPages (p : Pager ρ α β) : Prop :=
  ∀ n, ∃ fuel, n ≤ ((pages p fuel).1).length

/-- The `while` loop of `pages` when the injected callable can raise
(`Except`-valued): a raise at any call aborts the generator and the error
value reaches the caller unchanged. -/
def pagesLoopE (method : ListRequest ρ → Metadata →
      Except ε (ListResponse α β)) (meta : Metadata) :
    Nat → ListRequest ρ → ListResponse α β →
      Except ε (List (ListResponse α β) × List (ListRequest ρ × Metadata) ×
        ListRequest ρ × ListResponse α β)
  | 0, req, resp => .ok ([], [], req, resp)
  | fuel + 1, req, resp =>
    if resp.next_page_token ≠ "" then
      let req' := { req with page_token := resp.next_page_token }
      match method req' meta with
      | .error e => .error e
      | .ok resp' =>
        match pagesLoopE method meta fuel req' resp' with
        | .error e => .error e
        | .ok out => .ok (resp' :: out.1, (req', meta) :: out.2.1, out.2.2)
    else
      .ok ([], [], req, resp)

end ListPager

namespace ListNetworkEndpointsPager

/-- The state of a `ListNetworkEndpointsPager` (`__init__`, lines 112-139):
same four fields as `ListPager`, over its own request/response/item types
(kept parametric here, as the schemas are external). -/
structure Pager (ρ α β : Type) where
  method : ListRequest ρ → Metadata → ListResponse α β
  request : ListRequest ρ
  response : ListResponse α β
  metadata : Metadata

/-- `ListNetworkEndpointsPager.__init__` (lines 112-139). -/
def init (method : ListRequest ρ → Metadata → ListResponse α β)
    (request : ListRequest ρ) (response : ListResponse α β)
    (metadata : Metadata := []) : Pager ρ α β :=
  { method := method, request := request, response := response,
    metadata := metadata }

/-- `ListNetworkEndpointsPager.__getattr__` (lines 141-142). -/
def getattr (p : Pager ρ α β) (name : String) : Option β :=
  p.response.attrs name

/-- One iteration of the `while` loop inside
`ListNetworkEndpointsPager.pages` (lines 146-149). -/
def step (p : Pager ρ α β) : Option (ListResponse α β × Pager ρ α β) :=
  if p.response.next_page_token ≠ "" then
    let req' := { p.request with page_token := p.response.next_page_token }
    let resp' := p.method req' p.metadata
    some (resp', { p with request := req', response := resp' })
  else
    none

/-- The `while` loop of `ListNetworkEndpointsPager.pages` (lines 146-149),
fuel-indexed exactly as for `ListPager`. -/
def pagesLoop (method : ListRequest ρ → Metadata → ListResponse α β)
    (meta : Metadata) :
    Nat → ListRequest ρ → ListResponse α β →
      List (ListResponse α β) × List (ListRequest ρ × Metadata) ×
        ListRequest ρ × ListResponse α β
  | 0, req, resp => ([], [], req, resp)
  | fuel + 1, req, resp =>
    if resp.next_page_token ≠ "" then
      let req' := { req with page_token := resp.next_page_token }
      let resp' := method req' meta
      let out := pagesLoop method meta fuel req' resp'
      (resp' :: out.1, (req', meta) :: out.2.1, out.2.2)
    else
      ([], [], req, resp)

/-- A full run of `ListNetworkEndpointsPager.pages` (lines 144-149). -/
def pages (p : Pager ρ α β) (fuel : Nat) :
    List (ListResponse α β) × List (ListRequest ρ × Metadata) × Pager ρ α β :=
  let out := pagesLoop p.method p.metadata fuel p.request p.response
  (p.response :: out.1, out.2.1,
    { p with request := out.2.2.1, response := out.2.2.2 })

/-- `ListNetworkEndpointsPager.__iter__` (lines 151-153). -/
def iter (p : Pager ρ α β) (fuel : Nat) : List α :=
  ((pages p fuel).1.map ListResponse.items).flatten

/-- The evident correspondence of pager states between the two classes
(they have the same four components). -/
def toListPager (p : Pager ρ α β) : ListPager.Pager ρ α β :=
  { method := p.method, request := p.request, response := p.response,
    metadata := p.metadata }

end ListNetworkEndpointsPager

/-! ## Concrete fixtures

Concrete requests, responses, callables and pagers used to instantiate the
theorems below (the spec's own scenarios: a two-page chain `[A,B]`,`[C]`, a
single empty page, and a callable that always returns a non-empty token). -/

namespace Fx

/-- Page 1 of the spec's scenario: items `[1, 2]`, token `"t1"`. -/
def respB : ListResponse Nat Nat :=
  { items := [1, 2], next_page_token := "t1", attrs := fun _ => some 5 }

/-- Page 2 of the spec's scenario: items `[3]`, empty token (last page). -/
def respC : ListResponse Nat Nat :=
  { items := [3], next_page_token := "", attrs := fun _ => some 7 }

/-- A response whose token is never empty (server-defect scenario). -/
def respT : ListResponse Nat Nat :=
  { items := [9], next_page_token := "t", attrs := fun _ => none }

/-- The empty single page of the spec's scenario. -/
def respE : ListResponse Nat Nat :=
  { items := [], next_page_token := "", attrs := fun _ => none }

/-- An initial request (empty token, opaque remainder). -/
def reqA : ListRequest Unit :=
  { page_token := "", rest := () }

/-- Concrete static metadata. -/
def meta1 : Metadata := [("k", "v")]

/-- A callable that always returns the last page `respC`. -/
def methodBC : ListRequest Unit → Metadata → ListResponse Nat Nat :=
  fun _ _ => respC

/-- A callable that always returns `respT`, whose token is non-empty. -/
def methodT : ListRequest Unit → Metadata → ListResponse Nat Nat :=
  fun _ _ => respT

/-- The error value a raising callable raises. -/
def boom : String := "boom"

/-- A callable that always raises. -/
def methodErr : ListRequest Unit → Metadata →
    Except String (ListResponse Nat Nat) :=
  fun _ _ => .error boom

/-- An attribute name used to exercise attribute forwarding. -/
def attrName : String := "kind"

/-- The spec's two-page scenario pager: held response `respB`, callable
returning `respC`. -/
def pBC : ListPager.Pager Unit Nat Nat :=
  ListPager.init methodBC reqA respB meta1

/-- A single-page pager (held response has an empty token). -/
def pC : ListPager.Pager Unit Nat Nat :=
  ListPager.init methodBC reqA respC meta1

/-- A pager over the empty single page. -/
def pE : ListPager.Pager Unit Nat Nat :=
  ListPager.init methodBC reqA respE meta1

/-- A pager whose callable always returns a non-empty token but whose held
response's token is already empty. -/
def pT0 : ListPager.Pager Unit Nat Nat :=
  ListPager.init methodT reqA respC meta1

/-- A pager whose callable always returns a non-empty token and whose held
response's token is non-empty: genuinely unbounded iteration. -/
def pTT : ListPager.Pager Unit Nat Nat :=
  ListPager.init methodT reqA respT meta1

/-- The two-page pager after one advance of the loop: its held response is
now `respC`. -/
def pAdv : ListPager.Pager Unit Nat Nat :=
  (ListPager.pages pBC 1).2.2

/-- The state `step` reaches from `pBC`: held response now `respC`, request
token now `respB`'s continuation token. -/
def pAfter : ListPager.Pager Unit Nat Nat :=
  ListPager.init methodBC { page_token := respB.next_page_token, rest := () }
    respC meta1

/-- A request over a non-trivial remainder type, to exercise the frame
condition on the fields other than `page_token`. -/
def reqN : ListRequest Nat :=
  { page_token := "", rest := 42 }

/-- A callable over the non-trivial request type. -/
def methodNC : ListRequest Nat → Metadata → ListResponse Nat Nat :=
  fun _ _ => respC

end Fx

/-! ## Helper lemmas about the loop -/

namespace ListPager

/-- With an empty held token the loop does nothing, for every fuel. -/
theorem pagesLoop_token_empty
    (method : ListRequest ρ → Metadata → ListResponse α β) (meta : Metadata)
    (fuel : Nat) (req : ListRequest ρ) (resp : ListResponse α β)
    (h : resp.next_page_token = "") :
    pagesLoop method meta fuel req resp = ([], [], req, resp) := by
  cases fuel with
  | zero => rfl
  | succ n => simp [pagesLoop, h]

/-- Along a `Chain`, any sufficient fuel makes the loop yield exactly the
chain's responses with exactly the chain's call trace. -/
theorem pagesLoop_of_chain
    {method : ListRequest ρ → Metadata → ListResponse α β} {meta : Metadata}
    {req : ListRequest ρ} {resp : ListResponse α β}
    {rest : List (ListResponse α β)}
    (h : Chain method meta req resp rest) :
    ∀ fuel, rest.length ≤ fuel →
      (pagesLoop method meta fuel req resp).1 = rest ∧
      (pagesLoop method meta fuel req resp).2.1
        = chainCalls meta req resp rest := by
  induction h with
  | last req resp hend =>
    intro fuel _
    rw [pagesLoop_token_empty method meta fuel req resp hend]
    exact ⟨rfl, rfl⟩
  | step req resp resp' rest hne hcall hrest ih =>
    intro fuel hfuel
    cases fuel with
    | zero => simp at hfuel
    | succ n =>
      have hn : rest.length ≤ n := by simpa using hfuel
      obtain ⟨h1, h2⟩ := ih n hn
      simp only [pagesLoop, if_pos hne, hcall]
      refine ⟨by rw [h1], ?_⟩
      rw [h2]
      rfl

/-- The chain call trace has one call per fetched page. -/
theorem chainCalls_length (meta : Metadata) :
    ∀ (rest : List (ListResponse α β)) (req : ListRequest ρ)
      (resp : ListResponse α β),
      (chainCalls meta req resp rest).length = rest.length := by
  intro rest
  induction rest with
  | nil => intro req resp; rfl
  | cons r' rs ih => intro req resp; simp [chainCalls, ih]

/-- Each call of the chain trace carries the previous response's
continuation token in its request's `page_token`. -/
theorem chainCalls_token (meta : Metadata) :
    ∀ (rest : List (ListResponse α β)) (req : ListRequest ρ)
      (resp : ListResponse α β) (i : Nat), i < rest.length →
      ((chainCalls meta req resp rest).get? i).map
          (fun c => c.1.page_token)
        = ((resp :: rest).get? i).map ListResponse.next_page_token := by
  intro rest
  induction rest with
  | nil => intro req resp i hi; simp at hi
  | cons r' rs ih =>
    intro req resp i hi
    cases i with
    | zero => simp [chainCalls]
    | succ j =>
      simp only [chainCalls, List.get?_cons_succ]
      exact ih _ r' j (by simpa using hi)

/-- Each call of the chain trace carries the fixed metadata. -/
theorem chainCalls_meta (meta : Metadata) :
    ∀ (rest : List (ListResponse α β)) (req : ListRequest ρ)
      (resp : ListResponse α β) (c : ListRequest ρ × Metadata),
      c ∈ chainCalls meta req resp rest → c.2 = meta := by
  intro rest
  induction rest with
  | nil => intro req resp c hc; simp [chainCalls] at hc
  | cons r' rs ih =>
    intro req resp c hc
    simp only [chainCalls, List.mem_cons] at hc
    cases hc with
    | inl h => rw [h]
    | inr h => exact ih _ r' c h

/-- If the callable only ever returns responses with a non-empty token and
the held token is non-empty, the loop consumes all its fuel, yielding one
page per unit of fuel. -/
theorem pagesLoop_length_of_nonempty
    {method : ListRequest ρ → Metadata → ListResponse α β} {meta : Metadata}
    (hm : AlwaysNonempty method) :
    ∀ (fuel : Nat) (req : ListRequest ρ) (resp : ListResponse α β),
      resp.next_page_token ≠ "" →
      ((pagesLoop method meta fuel req resp).1).length = fuel := by
  intro fuel
  induction fuel with
  | zero => intro req resp _; rfl
  | succ n ih =>
    intro req resp hne
    simp only [pagesLoop, if_pos hne, List.length_cons]
    rw [ih _ _ (hm _ _)]

/-- The final response held after a loop run is the last page the loop
yielded (or the starting response when the loop yielded nothing). -/
theorem pagesLoop_final_resp
    (method : ListRequest ρ → Metadata → ListResponse α β) (meta : Metadata) :
    ∀ (fuel : Nat) (req : ListRequest ρ) (resp : ListResponse α β),
      (pagesLoop method meta fuel req resp).2.2.2
        = ((pagesLoop method meta fuel req resp).1).getLastD resp := by
  intro fuel
  induction fuel with
  | zero => intro req resp; rfl
  | succ n ih =>
    intro req resp
    by_cases hne : resp.next_page_token = ""
    · simp [pagesLoop, hne]
    · simp only [pagesLoop, if_pos (by exact hne : resp.next_page_token ≠ ""),
        List.getLastD_cons]
      exact ih _ _

/-- Every call the loop makes carries the fixed metadata. -/
theorem pagesLoop_calls_meta
    (method : ListRequest ρ → Metadata → ListResponse α β) (meta : Metadata) :
    ∀ (fuel : Nat) (req : ListRequest ρ) (resp : ListResponse α β)
      (c : ListRequest ρ × Metadata),
      c ∈ (pagesLoop method meta fuel req resp).2.1 → c.2 = meta := by
  intro fuel
  induction fuel with
  | zero => intro req resp c hc; simp [pagesLoop] at hc
  | succ n ih =>
    intro req resp c hc
    by_cases hne : resp.next_page_token = ""
    · simp [pagesLoop, hne] at hc
    · simp only [pagesLoop, if_pos (by exact hne : resp.next_page_token ≠ ""),
        List.mem_cons] at hc
      cases hc with
      | inl h => rw [h]
      | inr h => exact ih _ _ c h

/-- The loop changes only the `page_token` field of the request: every call
it makes, and the final held request, keep the starting request's other
fields. -/
theorem pagesLoop_rest
    (method : ListRequest ρ → Metadata → ListResponse α β) (meta : Metadata) :
    ∀ (fuel : Nat) (req : ListRequest ρ) (resp : ListResponse α β),
      (∀ c ∈ (pagesLoop method meta fuel req resp).2.1, c.1.rest = req.rest)
        ∧ (pagesLoop method meta fuel req resp).2.2.1.rest = req.rest := by
  intro fuel
  induction fuel with
  | zero => intro req resp; exact ⟨by simp [pagesLoop], rfl⟩
  | succ n ih =>
    intro req resp
    by_cases hne : resp.next_page_token = ""
    · simp [pagesLoop, hne]
    · obtain ⟨ihc, ihf⟩ :=
        ih { req with page_token := resp.next_page_token }
          (method { req with page_token := resp.next_page_token } meta)
      constructor
      · intro c hc
        simp only [pagesLoop,
          if_pos (by exact hne : resp.next_page_token ≠ ""),
          List.mem_cons] at hc
        cases hc with
        | inl h => rw [h]
        | inr h => exact ihc c h
      · simp only [pagesLoop,
          if_pos (by exact hne : resp.next_page_token ≠ "")]
        exact ihf

/-- Any error the `Except`-valued loop returns is an error some call to the
injected callable returned: the pager originates no errors of its own. -/
theorem pagesLoopE_error_source
    {method : ListRequest ρ → Metadata → Except ε (ListResponse α β)}
    {meta : Metadata} :
    ∀ (fuel : Nat) (req : ListRequest ρ) (resp : ListResponse α β) (e : ε),
      pagesLoopE method meta fuel req resp = .error e →
      ∃ req', method req' meta = .error e := by
  intro fuel
  induction fuel with
  | zero => intro req resp e h; simp [pagesLoopE] at h
  | succ n ih =>
    intro req resp e h
    by_cases hne : resp.next_page_token = ""
    · simp [pagesLoopE, hne] at h
    · simp only [pagesLoopE,
        if_pos (by exact hne : resp.next_page_token ≠ "")] at h
      split at h
      · rename_i e' heq
        injection h with h'
        exact ⟨_, by rw [heq, h']⟩
      · rename_i resp' heq
        split at h
        · rename_i e' heq'
          injection h with h'
          exact ih _ _ e (by rw [heq', h'])
        · exact absurd h (by simp)

/-- When the injected callable never raises, the `Except`-valued loop never
raises either, and computes exactly the pure loop's run. -/
theorem pagesLoopE_of_pure
    (method : ListRequest ρ → Metadata → ListResponse α β) (meta : Metadata) :
    ∀ (fuel : Nat) (req : ListRequest ρ) (resp : ListResponse α β),
      pagesLoopE (fun r m => Except.ok (ε := ε) (method r m)) meta fuel
          req resp
        = .ok (pagesLoop method meta fuel req resp) := by
  intro fuel
  induction fuel with
  | zero => intro req resp; rfl
  | succ n ih =>
    intro req resp
    by_cases hne : resp.next_page_token = ""
    · simp [pagesLoopE, pagesLoop, hne]
    · simp only [pagesLoopE, pagesLoop,
        if_pos (by exact hne : resp.next_page_token ≠ "")]
      rw [ih]

end ListPager

/-- The two classes run the same loop: their fuel-indexed `while` bodies
agree on all inputs. -/
theorem loops_eq (method : ListRequest ρ → Metadata → ListResponse α β)
    (meta : Metadata) :
    ∀ (fuel : Nat) (req : ListRequest ρ) (resp : ListResponse α β),
      ListNetworkEndpointsPager.pagesLoop method meta fuel req resp
        = ListPager.pagesLoop method meta fuel req resp := by
  intro fuel
  induction fuel with
  | zero => intro req resp; rfl
  | succ n ih =>
    intro req resp
    by_cases hne : resp.next_page_token = ""
    · simp [ListNetworkEndpointsPager.pagesLoop, ListPager.pagesLoop, hne]
    · simp only [ListNetworkEndpointsPager.pagesLoop, ListPager.pagesLoop,
        if_pos (by exact hne : resp.next_page_token ≠ "")]
      rw [ih]

/-! ## Claim theorems -/

/-- C1: For every chain of N responses (each of the first N-1 having a
non-empty continuation token that the injected callable maps to the next
response, the Nth having an empty token), iterating the pager's `items()`
(`__iter__`) yields exactly the concatenation of the N pages' item
sequences in page order, and the callable is invoked exactly N-1 times,
each invocation receiving a request whose `page_token` field equals the
previous response's `next_page_token`. -/
theorem C1_chain_iteration {ρ α β : Type}
    (method : ListRequest ρ → Metadata → ListResponse α β) (meta : Metadata)
    (req : ListRequest ρ) (resp : ListResponse α β)
    (rest : List (ListResponse α β))
    (hchain : ListPager.Chain method meta req resp rest)
    (fuel : Nat) (hfuel : rest.length ≤ fuel) :
    (ListPager.pages (ListPager.init method req resp meta) fuel).1
        = resp :: rest ∧
    ListPager.iter (ListPager.init method req resp meta) fuel
        = ((resp :: rest).map ListResponse.items).flatten ∧
    ((ListPager.pages (ListPager.init method req resp meta) fuel).2.1).length
        = (resp :: rest).length - 1 ∧
    ∀ i, i < rest.length →
      ((((ListPager.pages (ListPager.init method req resp meta) fuel).2.1).get?
          i).map (fun c => c.1.page_token))
        = ((((ListPager.pages (ListPager.init method req resp meta)
          fuel).1).get? i).map ListResponse.next_page_token) := by
  obtain ⟨h1, h2⟩ := ListPager.pagesLoop_of_chain hchain fuel hfuel
  have hp : (ListPager.pages (ListPager.init method req resp meta) fuel).1
      = resp :: rest := by
    simp [ListPager.pages, ListPager.init, h1]
  have hc : (ListPager.pages (ListPager.init method req resp meta) fuel).2.1
      = ListPager.chainCalls meta req resp rest := by
    simp [ListPager.pages, ListPager.init, h2]
  refine ⟨hp, ?_, ?_, ?_⟩
  · simp [ListPager.iter, hp]
  · rw [hc, ListPager.chainCalls_length]
    simp
  · intro i hi
    rw [hc, hp]
    exact ListPager.chainCalls_token meta rest req resp i hi

/-- C1 witness: the spec's own scenario — initial page items `[1, 2]` with
token `"t1"`, callable returning items `[3]` with empty token; `items()`
yields `[1, 2, 3]` and exactly one call is made. -/
theorem C1_witness :
    ListPager.Chain Fx.methodBC Fx.meta1 Fx.reqA Fx.respB [Fx.respC] ∧
    (ListPager.pages (ListPager.init Fx.methodBC Fx.reqA Fx.respB Fx.meta1)
        1).1 = [Fx.respB, Fx.respC] ∧
    ListPager.iter (ListPager.init Fx.methodBC Fx.reqA Fx.respB Fx.meta1) 1
        = [1, 2, 3] ∧
    ((ListPager.pages (ListPager.init Fx.methodBC Fx.reqA Fx.respB Fx.meta1)
        1).2.1).length = 1 := by
  have hch : ListPager.Chain Fx.methodBC Fx.meta1 Fx.reqA Fx.respB
      [Fx.respC] :=
    ListPager.Chain.step _ _ _ _ (by decide) rfl
      (ListPager.Chain.last _ _ rfl)
  have h := C1_chain_iteration Fx.methodBC Fx.meta1 Fx.reqA Fx.respB
    [Fx.respC] hch 1 (by decide)
  exact ⟨hch, h.1, h.2.1.trans rfl, h.2.2.1.trans rfl⟩

/-- C2: for a pager whose held response has an empty (or absent, which in
proto3 is the same) continuation token, `items()` yields exactly the held
response's items in order and the callable is never invoked; an empty
initial item sequence with no token yields an empty overall sequence. -/
theorem C2_single_page {ρ α β : Type} (p : ListPager.Pager ρ α β)
    (h : p.response.next_page_token = "") (fuel : Nat) :
    (ListPager.pages p fuel).1 = [p.response] ∧
    (ListPager.pages p fuel).2.1 = [] ∧
    ListPager.iter p fuel = p.response.items := by
  have hl := ListPager.pagesLoop_token_empty p.method p.metadata fuel
    p.request p.response h
  refine ⟨?_, ?_, ?_⟩ <;> simp [ListPager.pages, ListPager.iter, hl]

/-- C2 witness: the spec's own scenario — initial response with no items
and empty token; `items()` yields `[]` and no call is made. -/
theorem C2_witness :
    Fx.pE.response.next_page_token = "" ∧
    (ListPager.pages Fx.pE 3).1 = [Fx.respE] ∧
    (ListPager.pages Fx.pE 3).2.1 = [] ∧
    ListPager.iter Fx.pE 3 = [] := by
  have h := C2_single_page Fx.pE rfl 3
  exact ⟨rfl, h.1.trans rfl, h.2.1, h.2.2.trans rfl⟩

/-- C3 counterexample: the claim's unboundedness half fails as stated.  The
callable `Fx.methodT` is constant, so every response it returns carries the
non-empty token `"t"`; yet the pager `Fx.pT0`, whose held response's token
is already empty, terminates after its single held page (the callable is
never invoked), so its iteration is not unbounded. -/
theorem C3_counterexample :
    ListPager.AlwaysNonempty Fx.pT0.method ∧
    ¬ ListPager.UnboundedPages Fx.pT0 := by
  constructor
  · intro req meta
    simp [Fx.pT0, ListPager.init, Fx.methodT, Fx.respT]
  · intro h
    obtain ⟨fuel, hf⟩ := h 2
    have hl := ListPager.pagesLoop_token_empty Fx.pT0.method Fx.pT0.metadata
      fuel Fx.pT0.request Fx.pT0.response rfl
    simp [ListPager.pages, hl] at hf

/-- C3 (amended): the sequence produced by `pages()` terminates exactly
when a held response's continuation token is empty — if the current
response's token is empty no further elements are produced, and if the
currently held response's token is non-empty and every response returned by
the callable carries a non-empty token, the iteration is unbounded (one
page per unit of fuel, without bound). -/
theorem C3_termination_amended {ρ α β : Type} (p : ListPager.Pager ρ α β) :
    (p.response.next_page_token = "" →
      ∀ fuel, (ListPager.pages p fuel).1 = [p.response]) ∧
    (ListPager.AlwaysNonempty p.method → p.response.next_page_token ≠ "" →
      (∀ fuel, ((ListPager.pages p fuel).1).length = fuel + 1) ∧
      ListPager.UnboundedPages p) := by
  constructor
  · intro h fuel
    simp [ListPager.pages,
      ListPager.pagesLoop_token_empty p.method p.metadata fuel p.request
        p.response h]
  · intro hm hne
    have hlen : ∀ fuel, ((ListPager.pages p fuel).1).length = fuel + 1 := by
      intro fuel
      simp [ListPager.pages,
        ListPager.pagesLoop_length_of_nonempty hm fuel p.request
          p.response hne]
    exact ⟨hlen, fun n => ⟨n, by rw [hlen n]; omega⟩⟩

/-- C3 witness: a pager with an empty held token yields only its held page
at any fuel, and a pager with a non-empty held token whose callable always
returns non-empty tokens yields `fuel + 1` pages and is unbounded. -/
theorem C3_witness :
    Fx.pC.response.next_page_token = "" ∧
    (ListPager.pages Fx.pC 4).1 = [Fx.respC] ∧
    ListPager.AlwaysNonempty Fx.pTT.method ∧
    Fx.pTT.response.next_page_token ≠ "" ∧
    ((ListPager.pages Fx.pTT 4).1).length = 5 ∧
    ListPager.UnboundedPages Fx.pTT := by
  have h1 := (C3_termination_amended Fx.pC).1 rfl 4
  have hm : ListPager.AlwaysNonempty Fx.pTT.method := by
    intro req meta
    simp [Fx.pTT, ListPager.init, Fx.methodT, Fx.respT]
  have h2 := (C3_termination_amended Fx.pTT).2 hm (by decide)
  exact ⟨rfl, h1.trans rfl, hm, by decide, (h2.1 4).trans rfl, h2.2⟩

/-- C4 counterexample: a `pages()` iteration begun after the pager has
already advanced yields the *currently held* response first, not the
initially supplied one.  `Fx.pAdv` is the two-page pager `Fx.pBC` after one
advance: its next `pages()` run starts with `Fx.respC` (items `[3]`), not
with the initially supplied `Fx.respB` (items `[1, 2]`). -/
theorem C4_counterexample :
    ((ListPager.pages Fx.pAdv 0).1).head? = some Fx.pAdv.response ∧
    ¬ (((ListPager.pages Fx.pAdv 0).1).head? = some Fx.pBC.response) := by
  refine ⟨rfl, ?_⟩
  intro h
  have h2 : Fx.pAdv.response = Fx.pBC.response := by
    have hs : some Fx.pAdv.response = some Fx.pBC.response := by
      rw [← h]
      rfl
    exact Option.some.inj hs
  have h3 := congrArg ListResponse.items h2
  exact absurd (show ([3] : List Nat) = [1, 2] from h3) (by decide)

/-- C4 (amended): every iteration of `pages()` yields the *currently held*
response as its first element, regardless of how many total pages exist;
for a pager that has not yet advanced this is the initially supplied
response. -/
theorem C4_first_element_amended {ρ α β : Type} (p : ListPager.Pager ρ α β)
    (fuel : Nat) (method : ListRequest ρ → Metadata → ListResponse α β)
    (req : ListRequest ρ) (resp : ListResponse α β) (meta : Metadata) :
    ((ListPager.pages p fuel).1).head? = some p.response ∧
    ((ListPager.pages (ListPager.init method req resp meta) fuel).1).head?
      = some resp :=
  ⟨rfl, rfl⟩

/-- The last element of a non-empty list, as `getLast?` and as `getLastD`
of its tail. -/
theorem cons_getLastD {γ : Type} :
    ∀ (l : List γ) (a : γ), (a :: l).getLast? = some (l.getLastD a) := by
  intro l
  induction l with
  | nil => intro a; rfl
  | cons b t ih =>
    intro a
    rw [List.getLastD_cons, List.getLast?_cons_cons, ih b]

/-- C5: an attribute read on the pager (handled by `__getattr__`, i.e. for
every name outside the pager's own interface) returns the same attribute of
the most recently held response; after advancing to a new page the
forwarded value reflects the newly fetched response, and the response held
after any `pages` run is the last page that run yielded. -/
theorem C5_attribute_forwarding {ρ α β : Type} (p : ListPager.Pager ρ α β)
    (name : String) :
    ListPager.getattr p name = p.response.attrs name ∧
    (∀ r p', ListPager.step p = some (r, p') →
      ListPager.getattr p' name = r.attrs name) ∧
    ∀ fuel, ((ListPager.pages p fuel).1).getLast?
      = some ((ListPager.pages p fuel).2.2).response := by
  refine ⟨rfl, ?_, ?_⟩
  · intro r p' h
    simp only [ListPager.step] at h
    split at h
    · injection h with h'
      injection h' with ha hb
      subst hb
      subst ha
      rfl
    · exact Option.noConfusion h
  · intro fuel
    simp only [ListPager.pages]
    rw [ListPager.pagesLoop_final_resp, cons_getLastD]

/-- C5 witness: forwarding on the two-page pager before and after its
advance — before, the attribute comes from `Fx.respB`; after the step, it
comes from the newly fetched `Fx.respC`; the last page of a run is the
response the final state holds. -/
theorem C5_witness :
    ListPager.getattr Fx.pBC Fx.attrName = Fx.respB.attrs Fx.attrName ∧
    ListPager.step Fx.pBC = some (Fx.respC, Fx.pAfter) ∧
    ListPager.getattr Fx.pAfter Fx.attrName = Fx.respC.attrs Fx.attrName ∧
    ((ListPager.pages Fx.pBC 1).1).getLast? = some Fx.respC := by
  have h := C5_attribute_forwarding Fx.pBC Fx.attrName
  exact ⟨h.1.trans rfl, rfl, h.2.1 Fx.respC Fx.pAfter rfl, (h.2.2 1).trans rfl⟩

/-- C6: any error the `Except`-valued loop returns is an error returned by
some call to the injected callable (the pager originates no errors of its
own); an error on the first needed call propagates unchanged; when the
callable never raises, the loop never raises and computes the pure run;
and the only other failure surface, `__getattr__`, is a direct pass-through
of the attribute lookup on the held response. -/
theorem C6_error_propagation {ρ α β ε : Type}
    (method : ListRequest ρ → Metadata → Except ε (ListResponse α β))
    (meta : Metadata) :
    (∀ fuel req resp e,
      ListPager.pagesLoopE method meta fuel req resp = Except.error e →
      ∃ req', method req' meta = Except.error e) ∧
    (∀ fuel req resp e, resp.next_page_token ≠ "" →
      method { req with page_token := resp.next_page_token } meta
        = Except.error e →
      ListPager.pagesLoopE method meta (fuel + 1) req resp
        = Except.error e) ∧
    (∀ (g : ListRequest ρ → Metadata → ListResponse α β) fuel req resp,
      ListPager.pagesLoopE
          (fun r m => (Except.ok (g r m) : Except ε (ListResponse α β)))
          meta fuel req resp
        = Except.ok (ListPager.pagesLoop g meta fuel req resp)) ∧
    (∀ (p : ListPager.Pager ρ α β) name,
      ListPager.getattr p name = p.response.attrs name) := by
  refine ⟨ListPager.pagesLoopE_error_source, ?_, ?_, fun p name => rfl⟩
  · intro fuel req resp e hne herr
    simp only [ListPager.pagesLoopE, if_pos hne]
    rw [herr]
  · intro g fuel req resp
    exact ListPager.pagesLoopE_of_pure g meta fuel req resp

/-- C6 witness: a callable that always raises `Fx.boom` makes the loop
return exactly `Fx.boom` on a pager that needs a second page, and the error
indeed came from a call to the callable. -/
theorem C6_witness :
    Fx.respB.next_page_token ≠ "" ∧
    Fx.methodErr { page_token := Fx.respB.next_page_token, rest := () }
        Fx.meta1 = Except.error Fx.boom ∧
    ListPager.pagesLoopE Fx.methodErr Fx.meta1 3 Fx.reqA Fx.respB
      = Except.error Fx.boom := by
  have h := C6_error_propagation Fx.methodErr Fx.meta1
  exact ⟨by decide, rfl, h.2.1 2 Fx.reqA Fx.respB Fx.boom (by decide) rfl⟩

/-- C7: advancing replaces the held response with the newly fetched one and
retains nothing else: the post-step state is exactly the callable, the
token-updated request, the new response and the unchanged metadata — a
single response at a time, no cache of prior pages. -/
theorem C7_single_response_state {ρ α β : Type} (p : ListPager.Pager ρ α β)
    (r : ListResponse α β) (p' : ListPager.Pager ρ α β)
    (h : ListPager.step p = some (r, p')) :
    p'.response = r ∧
    p' = { method := p.method,
           request := { p.request with
             page_token := p.response.next_page_token },
           response := r, metadata := p.metadata } := by
  simp only [ListPager.step] at h
  split at h
  · injection h with h'
    injection h' with ha hb
    subst hb
    subst ha
    exact ⟨rfl, rfl⟩
  · exact Option.noConfusion h

/-- C7 witness: stepping the two-page pager yields exactly the state
holding the newly fetched `Fx.respC` (and nothing of the prior page). -/
theorem C7_witness :
    ListPager.step Fx.pBC = some (Fx.respC, Fx.pAfter) ∧
    Fx.pAfter.response = Fx.respC :=
  ⟨rfl, (C7_single_response_state Fx.pBC Fx.respC Fx.pAfter rfl).1⟩

/-- C8: the two pager classes are algorithmically identical — over the same
request/response/item types and the same injected callable behaviour, their
loop bodies agree on all inputs, and corresponding pager states produce the
same `pages` yields, the same call traces, the same `items()` iteration and
corresponding final states. -/
theorem C8_pager_equivalence {ρ α β : Type}
    (method : ListRequest ρ → Metadata → ListResponse α β) (meta : Metadata)
    (fuel : Nat) (req : ListRequest ρ) (resp : ListResponse α β)
    (p : ListNetworkEndpointsPager.Pager ρ α β) :
    ListNetworkEndpointsPager.pagesLoop method meta fuel req resp
      = ListPager.pagesLoop method meta fuel req resp ∧
    (ListNetworkEndpointsPager.pages p fuel).1
      = (ListPager.pages (ListNetworkEndpointsPager.toListPager p) fuel).1 ∧
    (ListNetworkEndpointsPager.pages p fuel).2.1
      = (ListPager.pages (ListNetworkEndpointsPager.toListPager p) fuel).2.1 ∧
    ListNetworkEndpointsPager.iter p fuel
      = ListPager.iter (ListNetworkEndpointsPager.toListPager p) fuel ∧
    ListNetworkEndpointsPager.toListPager
        ((ListNetworkEndpointsPager.pages p fuel).2.2)
      = (ListPager.pages (ListNetworkEndpointsPager.toListPager p)
          fuel).2.2 := by
  refine ⟨loops_eq method meta fuel req resp, ?_, ?_, ?_, ?_⟩ <;>
    simp [ListNetworkEndpointsPager.pages, ListPager.pages,
      ListNetworkEndpointsPager.iter, ListPager.iter,
      ListNetworkEndpointsPager.toListPager, loops_eq p.method p.metadata]

/-- C9: every call the pager makes carries exactly the metadata supplied at
construction, unchanged across all calls. -/
theorem C9_metadata_constant {ρ α β : Type} (p : ListPager.Pager ρ α β)
    (fuel : Nat) (c : ListRequest ρ × Metadata)
    (hc : c ∈ (ListPager.pages p fuel).2.1) : c.2 = p.metadata := by
  apply ListPager.pagesLoop_calls_meta p.method p.metadata fuel p.request
    p.response c
  simpa [ListPager.pages] using hc

/-- C9 witness: the single call of the two-page run carries the pager's
metadata `Fx.meta1`. -/
theorem C9_witness :
    ({ page_token := Fx.respB.next_page_token, rest := () }, Fx.meta1)
      ∈ (ListPager.pages Fx.pBC 1).2.1 ∧
    (({ page_token := Fx.respB.next_page_token, rest := () }, Fx.meta1) :
      ListRequest Unit × Metadata).2 = Fx.pBC.metadata := by
  have hmem : ({ page_token := Fx.respB.next_page_token, rest := () },
      Fx.meta1) ∈ (ListPager.pages Fx.pBC 1).2.1 := by decide
  exact ⟨hmem, C9_metadata_constant Fx.pBC 1 _ hmem⟩

/-- C10: the constructor stores (a copy of) the supplied request — in the
value semantics of the embedding the caller's own request value can never
change — and pagination touches only the internal request's `page_token`:
every request the callable receives and the finally held request keep all
other fields of the supplied request. -/
theorem C10_request_frame {ρ α β : Type}
    (method : ListRequest ρ → Metadata → ListResponse α β)
    (request : ListRequest ρ) (response : ListResponse α β)
    (meta : Metadata) :
    (ListPager.init method request response meta).request = request ∧
    (∀ fuel c,
      c ∈ (ListPager.pages (ListPager.init method request response meta)
          fuel).2.1 →
      c.1.rest = request.rest) ∧
    (∀ fuel,
      ((ListPager.pages (ListPager.init method request response meta)
          fuel).2.2).request.rest = request.rest) := by
  refine ⟨rfl, ?_, ?_⟩
  · intro fuel c hc
    exact (ListPager.pagesLoop_rest method meta fuel request response).1 c
      (by simpa [ListPager.pages, ListPager.init] using hc)
  · intro fuel
    have h := (ListPager.pagesLoop_rest method meta fuel request response).2
    simpa [ListPager.pages, ListPager.init] using h

/-- C10 witness: over a request whose remainder field is `42`, the call the
pager makes and the final held request still carry `42`; the constructor
returned the supplied request unchanged. -/
theorem C10_witness :
    (ListPager.init Fx.methodNC Fx.reqN Fx.respB Fx.meta1).request
      = Fx.reqN ∧
    ({ page_token := Fx.respB.next_page_token, rest := 42 }, Fx.meta1)
      ∈ (ListPager.pages
          (ListPager.init Fx.methodNC Fx.reqN Fx.respB Fx.meta1) 1).2.1 ∧
    (ListRequest.rest
      { page_token := Fx.respB.next_page_token, rest := (42 : Nat) })
      = Fx.reqN.rest ∧
    ((ListPager.pages (ListPager.init Fx.methodNC Fx.reqN Fx.respB Fx.meta1)
        1).2.2).request.rest = Fx.reqN.rest := by
  have h := C10_request_frame Fx.methodNC Fx.reqN Fx.respB Fx.meta1
  have hmem : ({ page_token := Fx.respB.next_page_token, rest := 42 },
      Fx.meta1) ∈ (ListPager.pages
        (ListPager.init Fx.methodNC Fx.reqN Fx.respB Fx.meta1) 1).2.1 := by
    decide
  exact ⟨h.1, hmem, h.2.1 1 _ hmem, h.2.2 1⟩
